import Mathlib

/-!
# Verification of the sound-play playback registry and launcher

Shallow embedding of the repository's audio playback module.  The
repository contains three variants of the same module:

* `src/src/index.js` (first half): an exec-based `play` that builds a
  single shell command string, awaits the player process, and rethrows
  any error (`playExec` below).
* `src/src/audio-player.ts` and the second half of `src/src/index.js`:
  a spawn-based registry design with `play` / `stop` / `stopAll`
  (`play`, `stop`, `stopAll` below).
* `src/unnamed/part_000`: the enhanced variant whose `play` also returns
  a `finished` promise (`playEnhanced` and the `Playback` lifecycle
  model below).

External collaborators are modelled as parameters or explicit inputs:
`path.resolve` is a function parameter, `crypto.randomBytes(4)` is a
list of byte values given as input, a spawned child process is a
numeric handle drawn from a counter, and process events (exit / error)
are delivered as explicit events.  JS `Map` is modelled as an
association list with `Map`-style get/set/delete.
-/

namespace SoundPlay

/-- The single-quote character, written via its code point. -/
def squote : Char := Char.ofNat 39

/-- The single-quote character as a one-character string. -/
def sq : String := String.singleton squote

/-- Playback ids are strings (8 hex characters in practice). -/
abbrev PlaybackId := String

/-- A spawned child process is identified by an opaque numeric handle. -/
abbrev Child := Nat

/-- The platform branch taken by `process.platform === 'darwin'`:
either the macOS-like branch or the other (Windows-like) branch. -/
inductive Platform
  | darwin
  | win32
deriving DecidableEq

/-- The registry `activeChildren : Map<PlaybackId, ChildProcess>`,
modelled as an association list (keys unique in every reachable state,
since ids are only inserted by `play`). -/
abbrev Registry := List (PlaybackId × Child)

/-- `Map.prototype.get`: first entry with the given key, if any. -/
def mapGet : Registry → PlaybackId → Option Child
  | [], _ => none
  | (k, v) :: rest, id => if k = id then some v else mapGet rest id

/-- `Map.prototype.set`: replace the value at an existing key in place,
otherwise append a new entry. -/
def mapSet : Registry → PlaybackId → Child → Registry
  | [], k, v => [(k, v)]
  | (k', v') :: rest, k, v =>
    if k' = k then (k, v) :: rest else (k', v') :: mapSet rest k v

/-- `Map.prototype.delete`: remove the entry with the given key. -/
def mapDelete (reg : Registry) (id : PlaybackId) : Registry :=
  reg.filter (fun p => p.1 ≠ id)

/-- `Array.from(activeChildren.keys())`: the snapshot of registered ids. -/
def keys (reg : Registry) : List PlaybackId := reg.map Prod.fst

/-- One hexadecimal digit, lowercase (as produced by `toString('hex')`). -/
def hexDigitChar (n : Nat) : Char :=
  if n < 10 then Char.ofNat (48 + n) else Char.ofNat (87 + n)

/-- A byte rendered as two lowercase hex characters. -/
def byteToHex (b : Nat) : String :=
  String.mk [hexDigitChar (b / 16 % 16), hexDigitChar (b % 16)]

/-- `makeId`: `crypto.randomBytes(4).toString('hex')`.  The four random
bytes are an explicit input; the result is their hex encoding. -/
def makeId (randomBytes : List Nat) : PlaybackId :=
  String.join (randomBytes.map byteToHex)

/-- Fractional decimal digits of `n / d` (`0 < n < d`), with fuel.
Terminates with no trailing zeros for every denominator dividing a
power of ten, which covers the decimal volumes the module handles. -/
def fracDigits : Nat → Nat → Nat → String
  | 0, _, _ => ""
  | _, 0, _ => ""
  | fuel + 1, n, d =>
    toString (n * 10 / d) ++ fracDigits fuel (n * 10 % d) d

/-- JavaScript `String(number)` for finite decimal values: integer part,
then a dot and the fractional digits when nonzero. -/
def numToString (q : ℚ) : String :=
  let sign := if q < 0 then "-" else ""
  let n := q.num.natAbs
  let ip := n / q.den
  let fr := n % q.den
  if fr = 0 then sign ++ toString ip
  else sign ++ toString ip ++ "." ++ fracDigits 30 fr q.den

/-- `macPlayCommand(filePath, volume)`: the `afplay` argument vector. -/
def macPlayCommand (filePath : String) (volume : ℚ) : List String :=
  ["afplay", filePath, "-v", numToString volume]

/-- `filePath.replace(/'/g, "''")` on a single character. -/
def escapeChar (c : Char) : List Char :=
  if c = squote then [squote, squote] else [c]

/-- `filePath.replace(/'/g, "''")`: double every single quote. -/
def escapeQuotes (s : String) : String :=
  String.mk (s.toList.flatMap escapeChar)

/-- `windowsPowerShellScript(filePath, volume)`: the inline PowerShell
script, with single quotes in the path doubled before interpolation. -/
def windowsPowerShellScript (filePath : String) (volume : ℚ) : String :=
  "\nAdd-Type -AssemblyName presentationCore;\n" ++
  "$player = New-Object system.windows.media.mediaplayer;\n" ++
  "$player.open(" ++ sq ++ escapeQuotes filePath ++ sq ++ ");\n" ++
  "$player.Volume = " ++ numToString volume ++ ";\n" ++
  "$player.Play();\n" ++
  "# Keep the process alive until the media finishes\n" ++
  "Start-Sleep -s $player.NaturalDuration.TimeSpan.TotalSeconds;\n"

/-- `windowsPlayCommand(filePath, volume)`: the PowerShell argument
vector, the script text passed as the single `-Command` argument. -/
def windowsPlayCommand (filePath : String) (volume : ℚ) : List String :=
  ["powershell", "-NoProfile", "-Command", windowsPowerShellScript filePath volume]

/-- `Math.min(a, b)` on (finite, non-NaN) numbers: the smaller value. -/
def mathMin (a b : ℚ) : ℚ :=
  if a ≤ b then a else b

/-- `process.platform === 'darwin' ? Math.min(2, volume * 2) : volume`. -/
def volForOs (platform : Platform) (volume : ℚ) : ℚ :=
  match platform with
  | .darwin => mathMin 2 (volume * 2)
  | .win32 => volume

/-- Requests the module issues to the operating system: spawning a
player process and sending a termination signal (`child.kill()`). -/
inductive Effect
  | spawn (cmd : List String) (child : Child)
  | kill (child : Child)
deriving DecidableEq

/-- Module state: the `activeChildren` registry plus a counter handing
out fresh process handles for spawned children. -/
structure Sys where
  activeChildren : Registry
  nextChild : Child
deriving DecidableEq

/-- `play(filePath, volume = 0.5)` of the spawn-based registry variant
(`src/src/audio-player.ts` lines 63-95, `src/src/index.js` lines
102-134): resolve the path, normalise the volume per platform, build
the command, spawn the child, generate an id, insert `(id, child)` into
the registry, and return the id.  `resolve` models `path.resolve`;
`randomBytes` are the four bytes drawn by `makeId`. -/
def play (platform : Platform) (resolve : String → String) (s : Sys)
    (filePath : String) (volume : ℚ) (randomBytes : List Nat) :
    PlaybackId × Sys × List Effect :=
  let absolutePath := resolve filePath
  let volFor := volForOs platform volume
  let cmd :=
    match platform with
    | .darwin => macPlayCommand absolutePath volFor
    | .win32 => windowsPlayCommand absolutePath volFor
  let child := s.nextChild
  let id := makeId randomBytes
  (id, ⟨mapSet s.activeChildren id child, s.nextChild + 1⟩, [Effect.spawn cmd child])

/-- The cleanup observer `() => activeChildren.delete(id)` registered by
`play` on both the `exit` and the `error` event of the child. -/
def cleanup (s : Sys) (id : PlaybackId) : Sys :=
  { s with activeChildren := mapDelete s.activeChildren id }

/-- `stop(id)` (`src/src/audio-player.ts` lines 103-116): look up the
id; if absent return `false` with no effect; otherwise kill the child,
delete the id immediately, and return `true`. -/
def stop (reg : Registry) (id : PlaybackId) : Bool × Registry × List Effect :=
  match mapGet reg id with
  | none => (false, reg, [])
  | some child => (true, mapDelete reg id, [Effect.kill child])

/-- The loop body of `stopAll`: iterate `stop` over a pre-taken
snapshot of ids, collecting the effects and the ids attempted. -/
def stopAllGo : List PlaybackId → Registry → Registry × List Effect × List PlaybackId
  | [], r => (r, [], [])
  | i :: rest, r =>
    let res := stop r i
    let next := stopAllGo rest res.2.1
    (next.1, res.2.2 ++ next.2.1, i :: next.2.2)

/-- `stopAll()` (`src/src/audio-player.ts` lines 121-125): snapshot the
keys with `Array.from(activeChildren.keys())`, then call `stop` on each. -/
def stopAll (reg : Registry) : Registry × List Effect × List PlaybackId :=
  stopAllGo (keys reg) reg

/-- Scans a character list and checks that every single quote is
immediately paired with a second one: no un-doubled quote occurs. -/
def quotesDoubled : List Char → Bool
  | [] => true
  | c :: rest =>
    if c = squote then
      match rest with
      | [] => false
      | c2 :: rest2 => if c2 = squote then quotesDoubled rest2 else false
    else quotesDoubled rest

/-!
## The exec-based variant (`src/src/index.js`, first half)

This variant builds one shell command string, runs it with
`util.promisify(exec)`, awaits the player process, and rethrows any
error.  The awaited outcome of the external process is an explicit
input; the `Except` result is the settlement of the promise `play`
returns (`.error` = the promise rejects with the rethrown error).
-/

/-- The outcome the awaited `execPromise` settles with. -/
inductive ExecOutcome
  | success
  | failure (err : String)
deriving DecidableEq

/-- `macPlayCommand(path, volume, rate)` of the exec-based variant:
a single shell string `afplay "path" -v volume -r rate`. -/
def macPlayCommandExec (path : String) (volume : ℚ) (rate : ℚ) : String :=
  "afplay \"" ++ path ++ "\" -v " ++ numToString volume ++ " -r " ++ numToString rate

/-- `windowPlayCommand(path, volume)` of the exec-based variant: a
single `powershell -c ...` shell string. -/
def windowPlayCommandExec (path : String) (volume : ℚ) : String :=
  "powershell -c Add-Type -AssemblyName presentationCore; " ++
  "$player = New-Object system.windows.media.mediaplayer; " ++
  "$player.open(" ++ sq ++ path ++ sq ++ "); " ++
  "$player.Volume = " ++ numToString volume ++ "; " ++
  "$player.Play(); " ++
  "Start-Sleep 1; Start-Sleep -s $player.NaturalDuration.TimeSpan.TotalSeconds;Exit;"

/-- `play(path, volume = 0.5, rate = 1)` of the exec-based variant
(`src/src/index.js` lines 31-44): adjust the volume, build the command
string, `await execPromise(playCommand)`, and rethrow on error.
`outcome` is the result the awaited process settles with. -/
def playExec (platform : Platform) (path : String) (volume : ℚ) (rate : ℚ)
    (outcome : ExecOutcome) : Except String Unit :=
  let volumeAdjustedByOS := volForOs platform volume
  let _playCommand :=
    match platform with
    | .darwin => macPlayCommandExec path volumeAdjustedByOS rate
    | .win32 => windowPlayCommandExec path volumeAdjustedByOS
  match outcome with
  | .success => .ok ()
  | .failure err => .error err

/-!
## The enhanced variant (`src/unnamed/part_000`)

Its `play` additionally creates a pending promise `finished` and a
`cleanup` observer that deletes the id from the registry and resolves
the promise; `cleanup` is registered with `child.once('exit', ...)` and
`child.once('error', ...)`.  The per-playback observable state —
membership of the id in the registry, the armed state of the two
one-shot listeners, and the promise — is modelled by `Playback`; the
events a playback can experience are modelled by `Ev`.
-/

/-- The settlement state of a JS promise.  `resolveFinished` only ever
resolves; a settled promise is unaffected by further settlement calls. -/
inductive PromiseSt
  | pending
  | resolvedOk
  | rejected
deriving DecidableEq, Fintype

/-- Calling the stored `resolveFinished`: resolves a pending promise,
no-op on a settled one (JS promise semantics). -/
def resolveP : PromiseSt → PromiseSt
  | .pending => .resolvedOk
  | s => s

/-- Per-playback observable state of the enhanced variant. -/
structure Playback where
  inRegistry : Bool
  exitArmed : Bool
  errorArmed : Bool
  promise : PromiseSt
deriving DecidableEq, Fintype

/-- The `cleanup` closure of the enhanced `play`:
`activeChildren.delete(id); resolveFinished();`. -/
def cleanupE (p : Playback) : Playback :=
  { p with inRegistry := false, promise := resolveP p.promise }

/-- Events affecting one playback: the child emits `exit`, the child
emits `error` (spawn failure), or the caller invokes `stop(id)`. -/
inductive Ev
  | exit
  | error
  | stopCall
deriving DecidableEq, Fintype

/-- One event step of the enhanced variant, for a single playback.
`exit` / `error` fire the one-shot `cleanup` listener if still armed;
`stop(id)` deletes the id from the registry when present (and kills the
child, whose later `exit` is a separate event). -/
def stepE (p : Playback) (e : Ev) : Playback :=
  match e with
  | .exit => if p.exitArmed then cleanupE { p with exitArmed := false } else p
  | .error => if p.errorArmed then cleanupE { p with errorArmed := false } else p
  | .stopCall => if p.inRegistry then { p with inRegistry := false } else p

/-- `play` of the enhanced variant (`src/unnamed/part_000` lines
59-92): same spawn and registration as `play`, plus the pending
`finished` promise and the two armed one-shot `cleanup` listeners.
Returns the id, the updated registry state, the spawn request, and the
new playback's lifecycle record. -/
def playEnhanced (platform : Platform) (resolve : String → String) (s : Sys)
    (filePath : String) (volume : ℚ) (randomBytes : List Nat) :
    PlaybackId × Sys × List Effect × Playback :=
  let r := play platform resolve s filePath volume randomBytes
  (r.1, r.2.1, r.2.2, ⟨true, true, true, .pending⟩)

/-- The number of steps at which the playback's promise passes from
pending to resolved along a list of events. -/
def resCount (p : Playback) : List Ev → Nat
  | [] => 0
  | e :: rest =>
    (if p.promise = .pending ∧ (stepE p e).promise = .resolvedOk then 1 else 0) +
      resCount (stepE p e) rest

/-!
## Helper lemmas about the registry map operations
-/

theorem mathMin_eq_min (a b : ℚ) : mathMin a b = min a b := by
  simp [mathMin, min_def]

theorem mapGet_mapSet_self (reg : Registry) (k : PlaybackId) (v : Child) :
    mapGet (mapSet reg k v) k = some v := by
  induction reg with
  | nil => simp [mapSet, mapGet]
  | cons p rest ih =>
    by_cases h : p.1 = k
    · simp [mapSet, h, mapGet]
    · simp [mapSet, h, mapGet, ih]

theorem mapGet_eq_none_iff (reg : Registry) (k : PlaybackId) :
    mapGet reg k = none ↔ k ∉ keys reg := by
  induction reg with
  | nil => simp [mapGet, keys]
  | cons p rest ih =>
    by_cases h : p.1 = k
    · simp [mapGet, h, keys]
    · have h2 : ¬ k = p.1 := fun hc => h hc.symm
      simp [mapGet, h, keys, h2, ih]

theorem mapDelete_of_not_mem (reg : Registry) (k : PlaybackId)
    (h : k ∉ keys reg) : mapDelete reg k = reg := by
  rw [mapDelete, List.filter_eq_self]
  intro p hp
  have : p.1 ∈ keys reg := List.mem_map_of_mem Prod.fst hp
  simp only [decide_eq_true_eq]
  intro hpk
  exact h (hpk ▸ this)

theorem mapGet_mapDelete_self (reg : Registry) (k : PlaybackId) :
    mapGet (mapDelete reg k) k = none := by
  induction reg with
  | nil => rfl
  | cons p rest ih =>
    by_cases h : p.1 = k
    · simpa [mapDelete, List.filter_cons, h] using ih
    · simpa [mapDelete, List.filter_cons, h, mapGet] using ih

theorem mapGet_mapDelete_ne (reg : Registry) (k id : PlaybackId)
    (h : k ≠ id) : mapGet (mapDelete reg id) k = mapGet reg k := by
  induction reg with
  | nil => rfl
  | cons p rest ih =>
    by_cases hp : p.1 = id
    · have hpk : ¬ p.1 = k := fun hc => h (hc ▸ hp)
      simp [mapDelete, List.filter_cons, hp] at ih ⊢
      rw [ih, mapGet]
      simp [hpk]
    · simp [mapDelete, List.filter_cons, hp, mapGet] at ih ⊢
      by_cases hk : p.1 = k
      · simp [hk]
      · simp [hk, ih]

theorem stop_registry_eq_mapDelete (reg : Registry) (id : PlaybackId) :
    (stop reg id).2.1 = mapDelete reg id := by
  unfold stop
  cases h : mapGet reg id with
  | none =>
    exact (mapDelete_of_not_mem reg id ((mapGet_eq_none_iff reg id).1 h)).symm
  | some c => rfl

/-!
## Helper lemmas about stopAll
-/

theorem stopAllGo_attempts (ids : List PlaybackId) (r : Registry) :
    (stopAllGo ids r).2.2 = ids := by
  induction ids generalizing r with
  | nil => rfl
  | cons i rest ih => simp [stopAllGo, ih]

theorem stopAllGo_registry (ids : List PlaybackId) (r : Registry) :
    (stopAllGo ids r).1 = ids.foldl mapDelete r := by
  induction ids generalizing r with
  | nil => rfl
  | cons i rest ih => simp [stopAllGo, List.foldl, ih, stop_registry_eq_mapDelete]

theorem foldl_mapDelete_eq_nil (ids : List PlaybackId) (r : Registry)
    (h : ∀ p ∈ r, p.1 ∈ ids) : ids.foldl mapDelete r = [] := by
  induction ids generalizing r with
  | nil =>
    cases r with
    | nil => rfl
    | cons p rest => exact absurd (h p (List.mem_cons_self p rest)) (by simp)
  | cons i rest ih =>
    rw [List.foldl]
    refine ih (mapDelete r i) ?_
    intro p hp
    rw [mapDelete, List.mem_filter] at hp
    have hne : ¬ p.1 = i := by simpa using hp.2
    rcases h p hp.1 with hmem
    rcases List.mem_cons.1 hmem with h1 | h2
    · exact absurd h1 hne
    · exact h2

theorem stopAll_registry_nil (reg : Registry) : (stopAll reg).1 = [] := by
  rw [stopAll, stopAllGo_registry]
  refine foldl_mapDelete_eq_nil (keys reg) reg ?_
  intro p hp
  exact List.mem_map_of_mem Prod.fst hp

theorem stopAllGo_effects (r : Registry) (h : (keys r).Nodup) :
    (stopAllGo (keys r) r).2.1 = r.map (fun p => Effect.kill p.2) := by
  induction r with
  | nil => rfl
  | cons p rest ih =>
    obtain ⟨k, v⟩ := p
    rw [keys, List.map_cons] at h
    have hk : k ∉ keys rest := by simpa [keys] using (List.nodup_cons.1 h).1
    have hrest : (keys rest).Nodup := (List.nodup_cons.1 h).2
    have hget : mapGet ((k, v) :: rest) k = some v := by simp [mapGet]
    have hdel : mapDelete ((k, v) :: rest) k = rest := by
      rw [mapDelete, List.filter_cons, if_neg (by simp)]
      exact mapDelete_of_not_mem rest k hk
    have hstop : stop ((k, v) :: rest) k = (true, rest, [Effect.kill v]) := by
      simp [stop, hget, hdel]
    show (stopAllGo (k :: keys rest) ((k, v) :: rest)).2.1 = _
    rw [stopAllGo, hstop]
    simp [ih hrest]


/-!
## Helper lemmas about the enhanced playback lifecycle
-/

/-- Invariant of a playback's lifecycle state: the promise is never
rejected, a resolved promise means the id has left the registry, and a
disarmed one-shot listener means its cleanup already ran. -/
def PlaybackInv (p : Playback) : Prop :=
  p.promise ≠ .rejected ∧
  (p.promise = .resolvedOk → p.inRegistry = false) ∧
  (p.exitArmed = false → p.promise = .resolvedOk) ∧
  (p.errorArmed = false → p.promise = .resolvedOk)

instance : DecidablePred PlaybackInv := fun p => by
  unfold PlaybackInv
  infer_instance

theorem stepE_inv : ∀ (p : Playback) (e : Ev),
    PlaybackInv p → PlaybackInv (stepE p e) := by decide

theorem stepE_keeps_resolved : ∀ (p : Playback) (e : Ev),
    p.promise = .resolvedOk → (stepE p e).promise = .resolvedOk := by decide

theorem stepE_trigger : ∀ (p : Playback), PlaybackInv p →
    (stepE p .exit).promise = .resolvedOk ∧
    (stepE p .error).promise = .resolvedOk := by decide

theorem foldl_stepE_inv (evs : List Ev) (p : Playback)
    (h : PlaybackInv p) : PlaybackInv (evs.foldl stepE p) := by
  induction evs generalizing p with
  | nil => exact h
  | cons e rest ih => exact ih (stepE p e) (stepE_inv p e h)

theorem foldl_stepE_resolved (evs : List Ev) (p : Playback)
    (h : p.promise = .resolvedOk) :
    (evs.foldl stepE p).promise = .resolvedOk := by
  induction evs generalizing p with
  | nil => exact h
  | cons e rest ih => exact ih (stepE p e) (stepE_keeps_resolved p e h)

theorem foldl_stepE_resolves_of_mem (evs : List Ev) (p : Playback)
    (hinv : PlaybackInv p) (h : Ev.exit ∈ evs ∨ Ev.error ∈ evs) :
    (evs.foldl stepE p).promise = .resolvedOk := by
  induction evs generalizing p with
  | nil => rcases h with h | h <;> simp at h
  | cons e rest ih =>
    rw [List.foldl_cons]
    rcases h with h | h
    · rcases List.mem_cons.1 h with he | he
      · exact foldl_stepE_resolved rest _ (he ▸ (stepE_trigger p hinv).1)
      · exact ih (stepE p e) (stepE_inv p e hinv) (Or.inl he)
    · rcases List.mem_cons.1 h with he | he
      · exact foldl_stepE_resolved rest _ (he ▸ (stepE_trigger p hinv).2)
      · exact ih (stepE p e) (stepE_inv p e hinv) (Or.inr he)

theorem resCount_of_resolved (evs : List Ev) (p : Playback)
    (h : p.promise = .resolvedOk) : resCount p evs = 0 := by
  induction evs generalizing p with
  | nil => rfl
  | cons e rest ih =>
    rw [resCount]
    rw [if_neg (by simp [h]), ih (stepE p e) (stepE_keeps_resolved p e h)]

theorem resCount_le_one (evs : List Ev) (p : Playback) :
    resCount p evs ≤ 1 := by
  induction evs generalizing p with
  | nil => exact Nat.zero_le 1
  | cons e rest ih =>
    rw [resCount]
    by_cases h : p.promise = .pending ∧ (stepE p e).promise = .resolvedOk
    · rw [if_pos h, resCount_of_resolved rest (stepE p e) h.2]
    · rw [if_neg h]
      simpa using ih (stepE p e)



/-!
## Helper lemmas about quote escaping
-/

theorem toList_escapeQuotes (s : String) :
    (escapeQuotes s).toList = s.toList.flatMap escapeChar := rfl

theorem quotesDoubled_flatMap (l : List Char) :
    quotesDoubled (l.flatMap escapeChar) = true := by
  induction l with
  | nil => rfl
  | cons c rest ih =>
    by_cases h : c = squote
    · rw [List.flatMap_cons]
      simp only [escapeChar, if_pos h, List.cons_append, List.nil_append]
      rw [quotesDoubled.eq_def]
      simp [ih]
    · rw [List.flatMap_cons]
      simp only [escapeChar, if_neg h, List.singleton_append]
      rw [quotesDoubled.eq_def]
      simp [h, ih]

theorem count_flatMap_escapeChar (l : List Char) :
    (l.flatMap escapeChar).count squote = 2 * l.count squote := by
  induction l with
  | nil => rfl
  | cons c rest ih =>
    by_cases h : c = squote
    · simp [List.flatMap_cons, escapeChar, h, List.count_append, List.count_cons, ih]
      omega
    · simp [List.flatMap_cons, escapeChar, h, List.count_append, List.count_cons, ih]



/-!
## Claim theorems
-/

/-- Claim C1: for every id, `stop(id)` returns `false` immediately with
no side effects when the id is absent from the registry; when present
it sends a termination request, removes the id from the registry
synchronously, and returns `true`; consequently a subsequent `stop` on
the resulting registry with the same id returns `false`, so at most one
`stop` call per id ever returns `true`. -/
theorem stop_idempotent_per_id (reg : Registry) (id : PlaybackId) :
    (mapGet reg id = none → stop reg id = (false, reg, [])) ∧
    (∀ c, mapGet reg id = some c →
      stop reg id = (true, mapDelete reg id, [Effect.kill c])) ∧
    (stop (stop reg id).2.1 id).1 = false := by
  refine ⟨?_, ?_, ?_⟩
  · intro h
    simp [stop, h]
  · intro c h
    simp [stop, h]
  · rw [stop_registry_eq_mapDelete]
    simp [stop, mapGet_mapDelete_self]

/-- Witness for C1 at a concrete registry: one entry, stopped twice,
and a never-issued id. -/
theorem stop_idempotent_per_id_witness :
    stop [("0a", 1)] "0a" = (true, [], [Effect.kill 1]) ∧
    (stop (stop [("0a", 1)] "0a").2.1 "0a").1 = false ∧
    stop [("0a", 1)] "zz" = (false, [("0a", 1)], []) := by
  refine ⟨?_, (stop_idempotent_per_id [("0a", 1)] "0a").2.2, ?_⟩
  · rw [(stop_idempotent_per_id [("0a", 1)] "0a").2.1 1 (by decide)]
    decide
  · exact (stop_idempotent_per_id [("0a", 1)] "zz").1 (by decide)

/-- Claim C2 counterexample: in the exec-based variant
(`src/src/index.js` lines 31-44), a failure of the spawned player
surfaces as an error thrown by `play` itself (the promise returned by
the `async` function rejects with the rethrown error), not through any
registry observer — contradicting the claim that a spawn failure is
never a thrown/returned error from `play`. -/
theorem playExec_propagates_error :
    playExec .darwin "ding.wav" 1 1 (.failure "spawn afplay ENOENT")
      = .error "spawn afplay ENOENT" := rfl

/-- Claim C2 (amended): in the spawn-based registry variant, `play`
performs exactly one spawn request and returns without any error
channel and without consuming a process outcome; a spawn failure is
delivered later to the `error` observer `cleanup`, whose entire effect
is the removal of the returned id from the registry.  The exec-based
variant of `src/src/index.js`, by contrast, awaits the player process
and propagates its failure as a rejection of the promise `play`
returns. -/
theorem play_failure_surfaces_async (platform : Platform)
    (resolve : String → String) (s : Sys) (filePath : String)
    (volume : ℚ) (randomBytes : List Nat) :
    (∃ cmd, (play platform resolve s filePath volume randomBytes).2.2
        = [Effect.spawn cmd s.nextChild]) ∧
    (cleanup (play platform resolve s filePath volume randomBytes).2.1
        (play platform resolve s filePath volume randomBytes).1).activeChildren
      = mapDelete
          (play platform resolve s filePath volume randomBytes).2.1.activeChildren
          (play platform resolve s filePath volume randomBytes).1 ∧
    mapGet (cleanup (play platform resolve s filePath volume randomBytes).2.1
        (play platform resolve s filePath volume randomBytes).1).activeChildren
        (play platform resolve s filePath volume randomBytes).1 = none := by
  refine ⟨?_, rfl, ?_⟩
  · cases platform with
    | darwin =>
      exact ⟨macPlayCommand (resolve filePath) (volForOs .darwin volume), rfl⟩
    | win32 =>
      exact ⟨windowsPlayCommand (resolve filePath) (volForOs .win32 volume), rfl⟩
  · show mapGet (mapDelete _ _) _ = none
    exact mapGet_mapDelete_self _ _

/-- Claim C3: for volume `v` in `[0,1]`, the macOS-like branch hands
`min(2, v*2)` to the command builder, and the Windows-like branch hands
`v` through unchanged. -/
theorem volume_normalization (resolve : String → String) (s : Sys)
    (filePath : String) (v : ℚ) (randomBytes : List Nat)
    (_h0 : 0 ≤ v) (_h1 : v ≤ 1) :
    volForOs .darwin v = min 2 (v * 2) ∧
    (play .darwin resolve s filePath v randomBytes).2.2
      = [Effect.spawn (macPlayCommand (resolve filePath) (min 2 (v * 2)))
          s.nextChild] ∧
    volForOs .win32 v = v ∧
    (play .win32 resolve s filePath v randomBytes).2.2
      = [Effect.spawn (windowsPlayCommand (resolve filePath) v) s.nextChild] := by
  have hd : volForOs .darwin v = min 2 (v * 2) := mathMin_eq_min 2 (v * 2)
  refine ⟨hd, ?_, rfl, rfl⟩
  rw [show (play .darwin resolve s filePath v randomBytes).2.2
      = [Effect.spawn (macPlayCommand (resolve filePath) (volForOs .darwin v))
          s.nextChild] from rfl, hd]

/-- Witness for C3 at volume one half. -/
theorem volume_normalization_witness :
    (0 : ℚ) ≤ 1/2 ∧ (1/2 : ℚ) ≤ 1 ∧
    volForOs .darwin (1/2) = min 2 ((1/2 : ℚ) * 2) ∧
    volForOs .win32 (1/2) = (1/2 : ℚ) := by
  have h0 : (0 : ℚ) ≤ 1/2 := by norm_num
  have h1 : (1/2 : ℚ) ≤ 1 := by norm_num
  have h := volume_normalization (fun p => p) ⟨[], 0⟩ "x.wav" (1/2)
    [0, 0, 0, 0] h0 h1
  exact ⟨h0, h1, h.1, h.2.2.1⟩

/-- Claim C4: `stopAll` snapshots the registered ids before iterating,
attempts `stop` once for each id in the snapshot (none skipped, none
double-visited), leaves the registry empty, and — keys being unique —
kills each registered child exactly once. -/
theorem stopAll_stops_every_id (reg : Registry) :
    (stopAll reg).2.2 = keys reg ∧
    (stopAll reg).1 = [] ∧
    ((keys reg).Nodup →
      (stopAll reg).2.1 = reg.map (fun p => Effect.kill p.2)) := by
  refine ⟨stopAllGo_attempts (keys reg) reg, stopAll_registry_nil reg, ?_⟩
  intro h
  exact stopAllGo_effects reg h

/-- Witness for C4 at a registry with two entries. -/
theorem stopAll_stops_every_id_witness :
    (stopAll [("0a", 1), ("0b", 2)]).2.2 = ["0a", "0b"] ∧
    (stopAll [("0a", 1), ("0b", 2)]).1 = [] ∧
    (stopAll [("0a", 1), ("0b", 2)]).2.1 = [Effect.kill 1, Effect.kill 2] := by
  have h := stopAll_stops_every_id [("0a", 1), ("0b", 2)]
  exact ⟨h.1, h.2.1, h.2.2 (by decide)⟩

set_option maxRecDepth 4096 in
/-- Claim C5 counterexample: the exec-based `loadAudioFile`
(`src/src/index.js` line 10) interpolates the file path into
`$player.open(...)` verbatim, with no `.replace` doubling the quotes.
For the path consisting of the letter a, a single quote, and the
letter b, the generated command carries that quote un-doubled inside
the open-argument: the whole command holds three quote characters —
the two delimiters plus the raw path quote — where doubling would give
four, and the interpolated path text fails the quote-pairing check. -/
theorem windows_exec_path_unescaped :
    windowPlayCommandExec ("a" ++ sq ++ "b") 1
      = "powershell -c Add-Type -AssemblyName presentationCore; " ++
        "$player = New-Object system.windows.media.mediaplayer; " ++
        "$player.open(" ++ sq ++ "a" ++ sq ++ "b" ++ sq ++ "); " ++
        "$player.Volume = 1; $player.Play(); " ++
        "Start-Sleep 1; Start-Sleep -s $player.NaturalDuration.TimeSpan.TotalSeconds;Exit;" ∧
    (windowPlayCommandExec ("a" ++ sq ++ "b") 1).toList.count squote = 3 ∧
    quotesDoubled (("a" ++ sq ++ "b").toList) = false := by
  refine ⟨by decide, by decide, by decide⟩

/-- Claim C5 (amended): in the spawn-based variant's
`windowsPowerShellScript`, every single quote of the file path is
doubled before interpolation into the script, the interpolated
open-argument is exactly the escaped path between two quote delimiters,
and the escaped text contains no un-doubled quote (every quote run
pairs up); the exec-based `loadAudioFile` of `src/src/index.js`, by
contrast, interpolates the path verbatim with no escaping. -/
theorem windows_script_quote_escaping (filePath : String) (v : ℚ) :
    (∃ pre post, windowsPowerShellScript filePath v
        = pre ++ ("$player.open(" ++ sq ++ escapeQuotes filePath ++ sq ++ ");\n")
          ++ post) ∧
    quotesDoubled (escapeQuotes filePath).toList = true ∧
    (escapeQuotes filePath).toList.count squote
      = 2 * filePath.toList.count squote := by
  refine ⟨⟨"\nAdd-Type -AssemblyName presentationCore;\n" ++
      "$player = New-Object system.windows.media.mediaplayer;\n",
      "$player.Volume = " ++ numToString v ++ ";\n" ++
      "$player.Play();\n" ++
      "# Keep the process alive until the media finishes\n" ++
      "Start-Sleep -s $player.NaturalDuration.TimeSpan.TotalSeconds;\n", ?_⟩,
    ?_, ?_⟩
  · rw [windowsPowerShellScript]
    simp only [String.append_assoc]
  · rw [toList_escapeQuotes]
    exact quotesDoubled_flatMap filePath.toList
  · rw [toList_escapeQuotes]
    exact count_flatMap_escapeChar filePath.toList

/-- Claim C6 counterexample: the exec-based `macPlayCommand`
(`src/src/index.js` line 5) builds the shell string
`afplay "path" -v volume -r rate` — it carries an additional `-r rate`
argument beyond the executable, path, and `-v volume`, and the path is
interpolated as given, not resolved to an absolute path — so the built
command is not limited to the parts the claim lists. -/
theorem mac_exec_command_extra_rate_arg :
    macPlayCommandExec "./ding.wav" 1 1
      = "afplay \"./ding.wav\" -v 1 -r 1" := by decide

/-- Claim C6 (amended): on the macOS-like branch of the spawn-based
variant, the built command is exactly the player executable, the
resolved path, and `-v` followed by the adjusted volume, with no other
arguments; at volume one half the rendered volume argument is the
string of one.  The exec-based variant of `src/src/index.js` instead
appends an extra `-r rate` argument and does not resolve the path. -/
theorem mac_command_built (resolve : String → String) (s : Sys)
    (filePath : String) (v : ℚ) (randomBytes : List Nat) :
    (play .darwin resolve s filePath v randomBytes).2.2
      = [Effect.spawn ["afplay", resolve filePath, "-v",
          numToString (volForOs .darwin v)] s.nextChild] ∧
    (play .darwin resolve s "./ding.wav" (1/2) randomBytes).2.2
      = [Effect.spawn ["afplay", resolve "./ding.wav", "-v", "1"]
          s.nextChild] := by
  constructor
  · rfl
  · have hv : volForOs .darwin (1/2 : ℚ) = 1 := by
      show mathMin 2 ((1/2 : ℚ) * 2) = 1
      rw [mathMin]
      norm_num
    have hs : numToString (volForOs .darwin (1/2 : ℚ)) = "1" := by
      rw [hv]
      decide
    rw [show (play .darwin resolve s "./ding.wav" (1/2) randomBytes).2.2
        = [Effect.spawn ["afplay", resolve "./ding.wav", "-v",
            numToString (volForOs .darwin (1/2))] s.nextChild] from rfl, hs]

/-- Claim C7 counterexample: when the four random bytes encode an id
already active in the registry, `play` returns that very id — it is
present among the active ids at call time, since no uniqueness check is
performed (the colliding `Map.set` overwrites the old entry). -/
theorem play_id_collision :
    (play .darwin (fun p => p) ⟨[("00000000", 0)], 1⟩ "x.wav" 1
        [0, 0, 0, 0]).1
      ∈ keys ([("00000000", 0)] : Registry) := by decide

/-- Claim C7 (amended): `play` returns the 8-hex-character encoding of
the four random bytes; whenever that id does not collide with a key
already in the registry — the only guarantee the code provides — the
returned id is not among the active ids at call time. -/
theorem play_id_fresh_unless_collision (platform : Platform)
    (resolve : String → String) (s : Sys) (filePath : String)
    (volume : ℚ) (randomBytes : List Nat)
    (h : mapGet s.activeChildren (makeId randomBytes) = none) :
    (play platform resolve s filePath volume randomBytes).1
      = makeId randomBytes ∧
    (play platform resolve s filePath volume randomBytes).1
      ∉ keys s.activeChildren :=
  ⟨rfl, (mapGet_eq_none_iff s.activeChildren (makeId randomBytes)).1 h⟩

/-- Witness for the amended C7: a non-colliding registry. -/
theorem play_id_fresh_unless_collision_witness :
    (play .darwin (fun p => p) ⟨[("aaaaaaaa", 0)], 1⟩ "x.wav" 1
        [0, 0, 0, 0]).1
      ∉ keys ([("aaaaaaaa", 0)] : Registry) :=
  (play_id_fresh_unless_collision .darwin (fun p => p) ⟨[("aaaaaaaa", 0)], 1⟩
    "x.wav" 1 [0, 0, 0, 0] (by decide)).2

/-- Claim C8: `play` inserts the pair of id and process handle into the
registry before returning: immediately after `play` returns, looking
the returned id up yields the spawned child's handle and `stop` on it
returns `true`. -/
theorem play_registers_before_return (platform : Platform)
    (resolve : String → String) (s : Sys) (filePath : String)
    (volume : ℚ) (randomBytes : List Nat) :
    mapGet
        (play platform resolve s filePath volume randomBytes).2.1.activeChildren
        (play platform resolve s filePath volume randomBytes).1
      = some s.nextChild ∧
    (stop (play platform resolve s filePath volume randomBytes).2.1.activeChildren
        (play platform resolve s filePath volume randomBytes).1).1 = true := by
  have h1 : mapGet
      (play platform resolve s filePath volume randomBytes).2.1.activeChildren
      (play platform resolve s filePath volume randomBytes).1
      = some s.nextChild := by
    show mapGet (mapSet s.activeChildren (makeId randomBytes) s.nextChild)
        (makeId randomBytes) = some s.nextChild
    exact mapGet_mapSet_self _ _ _
  exact ⟨h1, by simp [stop, h1]⟩

/-- Claim C9: in the enhanced variant, along any sequence of events the
`finished` promise never rejects, resolves once an exit or error event
from the child is delivered (normal exit, exit after an explicit stop,
or spawn error), is resolved at no more than one step, and the id is
out of the registry whenever the promise is resolved. -/
theorem finished_resolves_exactly_once (platform : Platform)
    (resolve : String → String) (s : Sys) (filePath : String)
    (volume : ℚ) (randomBytes : List Nat) (evs : List Ev) :
    ((evs.foldl stepE
        (playEnhanced platform resolve s filePath volume randomBytes).2.2.2).promise
      ≠ .rejected) ∧
    ((Ev.exit ∈ evs ∨ Ev.error ∈ evs) →
      (evs.foldl stepE
          (playEnhanced platform resolve s filePath volume randomBytes).2.2.2).promise
        = .resolvedOk) ∧
    ((evs.foldl stepE
          (playEnhanced platform resolve s filePath volume randomBytes).2.2.2).promise
        = .resolvedOk →
      (evs.foldl stepE
          (playEnhanced platform resolve s filePath volume randomBytes).2.2.2).inRegistry
        = false) ∧
    resCount (playEnhanced platform resolve s filePath volume randomBytes).2.2.2 evs
      ≤ 1 := by
  have hp0 : PlaybackInv
      (playEnhanced platform resolve s filePath volume randomBytes).2.2.2 := by
    show PlaybackInv ⟨true, true, true, .pending⟩
    decide
  have hinv := foldl_stepE_inv evs _ hp0
  refine ⟨hinv.1, ?_, hinv.2.1, resCount_le_one evs _⟩
  intro h
  exact foldl_stepE_resolves_of_mem evs _ hp0 h

/-- Witness for C9: a single exit event resolves the promise and the id
is out of the registry. -/
theorem finished_resolves_exactly_once_witness :
    (Ev.exit ∈ [Ev.exit] ∨ Ev.error ∈ [Ev.exit]) ∧
    ([Ev.exit].foldl stepE
        (playEnhanced .darwin (fun p => p) ⟨[], 0⟩ "x.wav" 1
          [0, 0, 0, 0]).2.2.2).promise = .resolvedOk ∧
    ([Ev.exit].foldl stepE
        (playEnhanced .darwin (fun p => p) ⟨[], 0⟩ "x.wav" 1
          [0, 0, 0, 0]).2.2.2).inRegistry = false := by
  have h := finished_resolves_exactly_once .darwin (fun p => p) ⟨[], 0⟩
    "x.wav" 1 [0, 0, 0, 0] [Ev.exit]
  have hmem : Ev.exit ∈ [Ev.exit] ∨ Ev.error ∈ [Ev.exit] :=
    Or.inl (List.mem_singleton.2 rfl)
  exact ⟨hmem, h.2.1 hmem, h.2.2.1 (h.2.1 hmem)⟩

/-- Claim C10: `stop(id)` touches no registry entry other than the one
keyed by the id — every other key keeps its process handle — and when
the id is absent the registry is returned unchanged. -/
theorem stop_frames_other_ids (reg : Registry) (id : PlaybackId) :
    (∀ k, k ≠ id → mapGet (stop reg id).2.1 k = mapGet reg k) ∧
    (mapGet reg id = none → (stop reg id).2.1 = reg) := by
  refine ⟨?_, ?_⟩
  · intro k hk
    rw [stop_registry_eq_mapDelete]
    exact mapGet_mapDelete_ne reg k id hk
  · intro h
    simp [stop, h]

/-- Witness for C10: stopping one id keeps the other entry; stopping an
unknown id leaves the registry untouched. -/
theorem stop_frames_other_ids_witness :
    mapGet (stop [("0a", 1), ("0b", 2)] "0a").2.1 "0b"
      = mapGet [("0a", 1), ("0b", 2)] "0b" ∧
    (stop [("0a", 1), ("0b", 2)] "zz").2.1 = [("0a", 1), ("0b", 2)] :=
  ⟨(stop_frames_other_ids [("0a", 1), ("0b", 2)] "0a").1 "0b" (by decide),
   (stop_frames_other_ids [("0a", 1), ("0b", 2)] "zz").2 (by decide)⟩


end SoundPlay
